import Mathlib

/-!
Verification of the chain core and tracker of a small voting blockchain
(`block123.py`, `tracker.py`, and the earlier draft under `src/`).

Conventions of the embedding:
* SHA-256 over UTF-8 bytes is modelled by an abstract function
  `sha : String → String` taken as a parameter; every theorem is stated
  for all such functions (hex digests are opaque strings).
* Python floats only flow through the code as JSON-rendered decimals, so
  a timestamp is carried as its shortest round-trip decimal rendering
  (a `String`), the exact form in which it enters `json.dumps`.
* Python runtime errors (AttributeError, TypeError, IndexError) are made
  explicit with `Except PyError`; a handler that lets an exception escape
  to the catch-all in `_handle_client` is modelled as returning the state
  it had mutated up to the raise point, together with the error.
* Python dicts are association lists in insertion order: an update of an
  existing key keeps its position, a new key is appended, matching CPython.
-/

/-- Python runtime errors that the embedded code can raise. -/
inductive PyError where
  | attributeError
  | typeError
  | indexError
  deriving DecidableEq, Repr

/-- Association-list update with CPython dict semantics: replace in place
if the key is present, append otherwise. -/
def dictSet {K V : Type} [DecidableEq K] : List (K × V) → K → V → List (K × V)
  | [], k, v => [(k, v)]
  | (k1, v1) :: tl, k, v =>
      if k = k1 then (k1, v) :: tl else (k1, v1) :: dictSet tl k v

/-- First-match lookup in an association list. -/
def dictLookup {K V : Type} [DecidableEq K] : List (K × V) → K → Option V
  | [], _ => none
  | (k1, v1) :: tl, k => if k = k1 then some v1 else dictLookup tl k

theorem dictLookup_dictSet {K V : Type} [DecidableEq K]
    (d : List (K × V)) (k k' : K) (v : V) :
    dictLookup (dictSet d k v) k' = if k' = k then some v else dictLookup d k' := by
  induction d with
  | nil => simp [dictSet, dictLookup]
  | cons hd tl ih =>
      obtain ⟨k1, v1⟩ := hd
      by_cases h1 : k = k1
      · subst h1
        by_cases h2 : k' = k <;> simp [dictSet, dictLookup, h2]
      · by_cases h2 : k' = k1
        · subst h2
          simp [dictSet, dictLookup, h1, Ne.symm h1]
        · simp [dictSet, dictLookup, h1, h2, ih]

theorem dictSet_keys {K V : Type} [DecidableEq K]
    (d : List (K × V)) (k : K) (v : V) :
    (dictSet d k v).map Prod.fst =
      if k ∈ d.map Prod.fst then d.map Prod.fst else d.map Prod.fst ++ [k] := by
  induction d with
  | nil => simp [dictSet]
  | cons hd tl ih =>
      obtain ⟨k1, v1⟩ := hd
      by_cases h1 : k = k1
      · subst h1; simp [dictSet]
      · simp [dictSet, h1, ih, Ne.symm h1]
        by_cases h2 : k ∈ tl.map Prod.fst <;> simp [h2, h1]

/-! ## Transactions (`block123.py`, class `Transaction`) -/

/-- A vote transaction.  `voteData` carries the `vote_data` dict as a
key-sorted-later association of keys to already-rendered JSON scalar
values; `timestamp` is the decimal rendering of the float. -/
structure Transaction where
  transactionId : String
  voterId : String
  voteData : List (String × String)
  signature : Option String
  timestamp : String
  deriving DecidableEq, Repr

/-- JSON string literal (voter ids, transaction ids and digests are assumed
to contain no characters that `json.dumps` would escape). -/
def jstr (s : String) : String := "\"" ++ s ++ "\""

/-- Insertion of a key into a key-sorted association list (String order). -/
def insertByKey (p : String × String) : List (String × String) → List (String × String)
  | [] => [p]
  | q :: tl => if p.1 < q.1 then p :: q :: tl else q :: insertByKey p tl

/-- Sort an association list by key, as `json.dumps(..., sort_keys=True)`
does for nested dicts. -/
def sortByKey (l : List (String × String)) : List (String × String) :=
  l.foldr insertByKey []

/-- Render a dict with sorted keys, default `json.dumps` separators. -/
def renderDict (kvs : List (String × String)) : String :=
  "\x7b" ++ String.intercalate ", "
    ((sortByKey kvs).map (fun p => jstr p.1 ++ ": " ++ p.2)) ++ "\x7d"

/-- Embedding of `json.dumps` of an optional string: `null` or a quoted string. -/
def renderOptStr : Option String → String
  | none => "null"
  | some s => jstr s

/-- Embedding of `json.dumps` of an optional int: `null` or the decimal literal. -/
def renderOptInt : Option Int → String
  | none => "null"
  | some n => toString n

/-- Removal of a key, Python `dict.pop(k, None)` on a fresh copy. -/
def dictPop (d : List (String × String)) (k : String) : List (String × String) :=
  d.filter (fun p => p.1 ≠ k)

/-- Embedding of `Transaction.to_dict`: the five fields in source insertion order, each
value already JSON-rendered. -/
def txToDict (t : Transaction) : List (String × String) :=
  [("transaction_id", jstr t.transactionId),
   ("voter_id", jstr t.voterId),
   ("vote_data", renderDict t.voteData),
   ("signature", renderOptStr t.signature),
   ("timestamp", t.timestamp)]

/-- Embedding of `Transaction.compute_hash` serialization: `to_dict()` with `signature`
popped, then `json.dumps(..., sort_keys=True)`. -/
def txCanonicalString (t : Transaction) : String :=
  renderDict (dictPop (txToDict t) "signature")

/-- Embedding of `Transaction.compute_hash`. -/
def txComputeHash (sha : String → String) (t : Transaction) : String :=
  sha (txCanonicalString t)

/-- Full `Transaction.to_dict` rendering (signature kept): the form a
transaction takes inside a block serialization. -/
def txFullString (t : Transaction) : String :=
  renderDict (txToDict t)

/-! ## Blocks (`block123.py`, class `Block`, the stake-carrying variant) -/

/-- A block of the stake-based chain core. -/
structure Block where
  index : Int
  transactions : List Transaction
  previousHash : String
  timestamp : String
  nonce : Int
  minerId : Option Int
  stakeValue : Option Int
  merkleRoot : String
  hash : String
  deriving DecidableEq, Repr

/-- One collapse level of `Block.calculate_merkle_root`: duplicate the last
hash when the count is odd, then hash adjacent pairs. -/
def merklePairs (sha : String → String) : List String → List String
  | a :: b :: rest => sha (a ++ b) :: merklePairs sha rest
  | [a] => [sha (a ++ a)]
  | [] => []

/-- The level produced from the (possibly odd) current level; the odd case
duplicates the final element, exactly as `tx_hashes.append(tx_hashes[-1])`. -/
def merkleLevel (sha : String → String) (l : List String) : List String :=
  merklePairs sha l

theorem merklePairs_length (sha : String → String) (l : List String) :
    (merklePairs sha l).length = (l.length + 1) / 2 := by
  induction l using merklePairs.induct sha with
  | case1 a b rest ih => simp [merklePairs, ih]; omega
  | case2 a => simp [merklePairs]
  | case3 => simp [merklePairs]

/-- The `while len(tx_hashes) > 1` loop of `calculate_merkle_root`. -/
def merkleLoop (sha : String → String) (l : List String) : List String :=
  if l.length ≤ 1 then l
  else merkleLoop sha (merkleLevel sha l)
termination_by l.length
decreasing_by
  simp [merkleLevel, merklePairs_length]
  omega

/-- Embedding of `Block.calculate_merkle_root`. -/
def calculateMerkleRoot (sha : String → String) (txs : List Transaction) : String :=
  if txs.isEmpty then sha ""
  else
    match merkleLoop sha (txs.map (txComputeHash sha)) with
    | x :: _ => x
    | [] => sha ""

/-- JSON rendering of a list of transactions embedded in a block. -/
def renderTxList (txs : List Transaction) : String :=
  "[" ++ String.intercalate ", " (txs.map txFullString) ++ "]"

/-- Embedding of `Block.to_dict`: the eight fields in source insertion order (`hash` is
not part of the dict), each value already JSON-rendered. -/
def blockToDict (b : Block) : List (String × String) :=
  [("index", toString b.index),
   ("transactions", renderTxList b.transactions),
   ("previous_hash", jstr b.previousHash),
   ("timestamp", b.timestamp),
   ("nonce", toString b.nonce),
   ("merkle_root", jstr b.merkleRoot),
   ("miner_id", renderOptInt b.minerId),
   ("stake_value", renderOptInt b.stakeValue)]

/-- Embedding of `Block.to_dict` followed by `json.dumps(..., sort_keys=True)`: the
canonical serialization that omits `hash` and includes the remaining eight
fields, keys in sorted order. -/
def blockCanonicalString (b : Block) : String :=
  renderDict (blockToDict b)

/-- Embedding of `Block.compute_hash`. -/
def blockComputeHash (sha : String → String) (b : Block) : String :=
  sha (blockCanonicalString b)

/-- The `Block.__init__` constructor when no precomputed hash is supplied:
`merkle_root` is derived from the transactions and `hash` from the
canonical serialization of the other fields. -/
def mkBlock (sha : String → String) (index : Int) (txs : List Transaction)
    (previousHash timestamp : String) (nonce : Int)
    (minerId stakeValue : Option Int) : Block :=
  let b0 : Block :=
    { index := index, transactions := txs, previousHash := previousHash,
      timestamp := timestamp, nonce := nonce, minerId := minerId,
      stakeValue := stakeValue,
      merkleRoot := calculateMerkleRoot sha txs, hash := "" }
  { b0 with hash := blockComputeHash sha b0 }

/-- Embedding of `Blockchain.create_genesis_block`: `Block(0, [], "0")`, miner and stake
absent; the wall-clock timestamp is a parameter. -/
def genesisBlock (sha : String → String) (ts : String) : Block :=
  mkBlock sha 0 [] "0" ts 0 none none

/-- Embedding of `Block.get_mining_difficulty`: `DEFAULT_DIFFICULTY - stake_value`
clamped into `[MIN_DIFFICULTY, MAX_DIFFICULTY] = [1, 8]`. -/
def getMiningDifficulty (stakeValue : Int) : Int :=
  let miningDifficulty := 4 - stakeValue
  if miningDifficulty > 8 then 8
  else if miningDifficulty < 1 then 1
  else miningDifficulty

/-! ## Chain validation (`block123.py`, class `Blockchain`) -/

/-- Embedding of `Blockchain.is_valid_new_block`.  The hash and previous-hash checks
return `False` on mismatch; the next check then evaluates
`new_block.hash.startswith('0' * new_block.mining_difficulty)`, but
`Block.__init__` never stores a `mining_difficulty` attribute, so reaching
it raises AttributeError (the index check below it is unreachable). -/
def isValidNewBlock (sha : String → String) (newBlock previousBlock : Block) :
    Except PyError Bool :=
  if newBlock.hash ≠ blockComputeHash sha newBlock then .ok false
  else if newBlock.previousHash ≠ previousBlock.hash then .ok false
  else .error PyError.attributeError

/-- Loop body of `Blockchain.is_chain_valid` over positions `i ≥ 1`:
`chain_score += stake_value` first (TypeError on a null stake), then the
hash check, then the link check, then the proof-of-work check whose
condition reads the missing `mining_difficulty` attribute. -/
def icvGo (sha : String → String) (prev : Block) (rest : List Block)
    (checks : List (Option Int × Bool)) (chainCheck : Bool) :
    Except PyError (Bool × List (Option Int × Bool)) :=
  match rest with
  | [] => .ok (chainCheck, checks)
  | cur :: tl =>
      match cur.stakeValue with
      | none => .error PyError.typeError
      | some _ =>
          if cur.hash ≠ blockComputeHash sha cur then
            icvGo sha cur tl (dictSet checks cur.minerId false) false
          else if cur.previousHash ≠ prev.hash then
            icvGo sha cur tl (dictSet checks cur.minerId false) false
          else .error PyError.attributeError

/-- Embedding of `Blockchain.is_chain_valid` (the variant used by the tracker), applied
to the chain list of the receiver.  Returns the pair
`(chain_check, miner_checks)`. -/
def isChainValid (sha : String → String) (chain : List Block) :
    Except PyError (Bool × List (Option Int × Bool)) :=
  match chain with
  | [] => .ok (true, [])
  | b :: tl => icvGo sha b tl [] true

/-- Loop body of `Blockchain.validate_chain` over positions `i ≥ 1`:
`chain_score += stake_value` (TypeError on null stake), then
`is_valid_new_block` decides the entry written for the miner of the block. -/
def vcGo (sha : String → String) (prev : Block) (rest : List Block)
    (checks : List (Option Int × Bool)) (chainCheck : Bool) :
    Except PyError (Bool × List (Option Int × Bool)) :=
  match rest with
  | [] => .ok (chainCheck, checks)
  | cur :: tl =>
      match cur.stakeValue with
      | none => .error PyError.typeError
      | some _ =>
          match isValidNewBlock sha cur prev with
          | .error e => .error e
          | .ok true => vcGo sha cur tl (dictSet checks cur.minerId true) chainCheck
          | .ok false => vcGo sha cur tl (dictSet checks cur.minerId false) false

/-- Embedding of `Blockchain.validate_chain` of a receiver whose own chain is
`selfChain`.  On an empty candidate the guard body indexes `chain[0]`
(IndexError); otherwise the genesis entry is written for
`chain[0].miner_id` and then `chain_score += chain[0].stake_value` runs
unconditionally (TypeError when the stake is null). -/
def validateChain (sha : String → String) (selfChain chain : List Block) :
    Except PyError (Bool × List (Option Int × Bool)) :=
  match chain with
  | [] => .error PyError.indexError
  | c0 :: tl =>
      match selfChain with
      | [] => .error PyError.indexError
      | g :: _ =>
          let first :=
            if c0.hash ≠ g.hash then (false, dictSet [] c0.minerId false)
            else (true, dictSet ([] : List (Option Int × Bool)) c0.minerId true)
          match c0.stakeValue with
          | none => .error PyError.typeError
          | some _ => vcGo sha c0 tl first.2 first.1

/-! ## Tracker heartbeat (`tracker.py`, `Tracker._handle_heartbeat`) -/

/-- The tracker state touched by heartbeat chain processing: the reference
blockchain (its chain list) and the stake map `self.miners`. -/
structure TrackerHB where
  blockchain : List Block
  miners : List (Int × Int)
  deriving DecidableEq, Repr

/-- Chain-and-stake part of `Tracker._handle_heartbeat` for a registered
peer, given the chain attached to the heartbeat.  `is_chain_valid` may
raise (propagating to the catch-all in `_handle_client`); after a
successful validation the reference chain is replaced when the candidate
is strictly longer and valid; the stake loop
`for miner_id, result in miner_results:` then iterates the keys of the
returned dict, and unpacking an int (or None) key into a pair raises
TypeError before any stake is written, unless the dict is empty. -/
def handleHeartbeat (sha : String → String) (s : TrackerHB) (temp : List Block) :
    TrackerHB × Option PyError :=
  match isChainValid sha temp with
  | .error e => (s, some e)
  | .ok (tempChainCheck, minerResults) =>
      let s1 :=
        if temp.length > s.blockchain.length ∧ tempChainCheck = true then
          { s with blockchain := temp }
        else s
      match minerResults with
      | [] => (s1, none)
      | _ :: _ => (s1, some PyError.typeError)

/-- Modelled from the spec (§4.5 step 4), the intended stake update the
source's loop header describes: for every `(miner_id, result)` pair of the
mapping, add 1 to the stake of that miner when `result` holds and subtract
1 otherwise (genesis contributes no pair). -/
def specStakeUpdate (miners : List (Int × Int)) :
    List (Option Int × Bool) → List (Int × Int)
  | [] => miners
  | (some m, r) :: tl =>
      specStakeUpdate
        (dictSet miners m ((dictLookup miners m).getD 0 + if r then 1 else -1)) tl
  | (none, _) :: tl => specStakeUpdate miners tl

/-! ## The earlier chain-core draft (`src/block123.py`), used by the peer
client (`src/client.py`).  Blocks carry no miner or stake; validity uses
the chain-global `difficulty`. -/

/-- A block of the earlier draft. -/
structure OldBlock where
  index : Int
  transactions : List Transaction
  previousHash : String
  timestamp : String
  nonce : Int
  merkleRoot : String
  hash : String
  deriving DecidableEq, Repr

/-- Embedding of `to_dict` of the earlier draft block: six fields, no miner or stake. -/
def oldBlockToDict (b : OldBlock) : List (String × String) :=
  [("index", toString b.index),
   ("transactions", renderTxList b.transactions),
   ("previous_hash", jstr b.previousHash),
   ("timestamp", b.timestamp),
   ("nonce", toString b.nonce),
   ("merkle_root", jstr b.merkleRoot)]

/-- Canonical serialization of the earlier draft block: `to_dict` omits
`hash`, keys sorted by `json.dumps`. -/
def oldBlockCanonicalString (b : OldBlock) : String :=
  renderDict (oldBlockToDict b)

/-- Embedding of `Block.compute_hash` of the earlier draft. -/
def oldBlockComputeHash (sha : String → String) (b : OldBlock) : String :=
  sha (oldBlockCanonicalString b)

/-- A blockchain of the earlier draft: chain-global difficulty, chain,
mempool. -/
structure OldBlockchain where
  difficulty : Nat
  chain : List OldBlock
  pending : List Transaction
  deriving DecidableEq, Repr

/-- A string of `d` zero characters, Python `'0' * d`. -/
def zeroTarget (d : Nat) : String :=
  String.mk (List.replicate d '0')

/-- Loop of the earlier-draft `Blockchain.is_chain_valid` over positions
`i ≥ 1`: hash recomputation, link, then proof-of-work against the
chain-global difficulty; every check returns `False` on failure. -/
def oldIcvGo (sha : String → String) (difficulty : Nat) :
    OldBlock → List OldBlock → Bool
  | _, [] => true
  | prev, cur :: tl =>
      if cur.hash ≠ oldBlockComputeHash sha cur then false
      else if cur.previousHash ≠ prev.hash then false
      else if ¬ cur.hash.startsWith (zeroTarget difficulty) then false
      else oldIcvGo sha difficulty cur tl

/-- Earlier-draft `Blockchain.is_chain_valid` (a plain boolean). -/
def oldIsChainValid (sha : String → String) (bc : OldBlockchain) : Bool :=
  match bc.chain with
  | [] => true
  | b :: tl => oldIcvGo sha bc.difficulty b tl

/-- Embedding of `Client._handle_chain_response` (`src/client.py`): build a temporary
blockchain from the payload and replace the local one when the received
chain is strictly longer and `temp_chain.is_chain_valid()` holds. -/
def handleChainResponse (sha : String → String) (cur temp : OldBlockchain) :
    OldBlockchain :=
  if temp.chain.length > cur.chain.length ∧ oldIsChainValid sha temp = true then
    temp
  else cur

/-! ## Tracker registration and liveness (`tracker.py`) -/

/-- The tracker state touched by registration, heartbeat timing and the
liveness sweep: the id counter `assigned_ids`, the active-peer table
(peer id to host, port, last heartbeat time), the peer table (peer id to
host, port, miner id) and the stake map `self.miners`. -/
structure TrackerReg where
  assignedIds : Nat
  activePeers : List (String × String × Int × Int)
  peers : List (String × String × Int × Nat)
  miners : List (Nat × Int)
  deriving DecidableEq, Repr

/-- The tracker state right after `Tracker.__init__`. -/
def initTracker : TrackerReg :=
  { assignedIds := 0, activePeers := [], peers := [], miners := [] }

/-- Tracker events the registration claims range over. -/
inductive TrackerEvent where
  | register (pid host : String) (port : Int) (now : Int)
  | heartbeat (pid : String) (now : Int)
  | sweep (now : Int)
  deriving DecidableEq, Repr

/-- Embedding of `Tracker._handle_register`: a peer id absent from `self.peers` gets the
next `assigned_ids` value as miner id with stake 0; a present one keeps the
miner id recorded in `self.peers`; both tables record the new endpoint and
heartbeat time. -/
def handleRegister (s : TrackerReg) (pid host : String) (port now : Int) :
    TrackerReg :=
  match dictLookup s.peers pid with
  | some entry =>
      { s with
        activePeers := dictSet s.activePeers pid (host, port, now),
        peers := dictSet s.peers pid (host, port, entry.2.2) }
  | none =>
      let minerId := s.assignedIds + 1
      { assignedIds := minerId,
        miners := dictSet s.miners minerId 0,
        activePeers := dictSet s.activePeers pid (host, port, now),
        peers := dictSet s.peers pid (host, port, minerId) }

/-- The `last_heartbeat` refresh of `Tracker._handle_heartbeat` for a
registered peer (the chain and stake effects are modelled by
`handleHeartbeat`; the stake loop raises before writing any stake, so the
fields of this structure other than `activePeers` are untouched). -/
def handleHeartbeatTime (s : TrackerReg) (pid : String) (now : Int) : TrackerReg :=
  match dictLookup s.activePeers pid with
  | some entry =>
      { s with activePeers := dictSet s.activePeers pid (entry.1, entry.2.1, now) }
  | none => s

/-- Embedding of `Tracker._check_heartbeats` sweep at time `now`: peers silent for more
than 30 seconds are removed from both `active_peers` and `peers`;
`assigned_ids` and `miners` are untouched. -/
def handleSweep (s : TrackerReg) (now : Int) : TrackerReg :=
  let dead := (s.activePeers.filter (fun p => now - p.2.2.2 > 30)).map Prod.fst
  { s with
    activePeers := s.activePeers.filter (fun p => ¬ p.1 ∈ dead),
    peers := s.peers.filter (fun p => ¬ p.1 ∈ dead) }

/-- One tracker event. -/
def trackerStep (s : TrackerReg) : TrackerEvent → TrackerReg
  | .register pid host port now => handleRegister s pid host port now
  | .heartbeat pid now => handleHeartbeatTime s pid now
  | .sweep now => handleSweep s now

/-- Replay of a sequence of tracker events. -/
def trackerReplay (s : TrackerReg) : List TrackerEvent → TrackerReg
  | [] => s
  | e :: tl => trackerReplay (trackerStep s e) tl

/-- The miner ids handed out, in order, while replaying a sequence of
tracker events (one per registration of a peer id absent from the peer
table at that moment). -/
def trackerFreshIds (s : TrackerReg) : List TrackerEvent → List Nat
  | [] => []
  | e :: tl =>
      match e with
      | .register pid _ _ _ =>
          match dictLookup s.peers pid with
          | none => (s.assignedIds + 1) :: trackerFreshIds (trackerStep s e) tl
          | some _ => trackerFreshIds (trackerStep s e) tl
      | _ => trackerFreshIds (trackerStep s e) tl

/-! ## Mempool admission (`block123.py`, `Blockchain.add_transaction`) -/

/-- The blockchain state `add_transaction` reads and writes: the committed
chain and the pending-transaction mempool. -/
structure ChainState where
  chain : List Block
  pending : List Transaction
  deriving DecidableEq, Repr

/-- Embedding of `Blockchain.has_voter_voted`: the voter id occurs in some pending
transaction or in some transaction of some block of the chain. -/
def hasVoterVoted (s : ChainState) (voterId : String) : Bool :=
  s.pending.any (fun tx => tx.voterId = voterId) ||
  s.chain.any (fun b => b.transactions.any (fun tx => tx.voterId = voterId))

/-- Embedding of `Transaction.verify_signature`: a missing or empty (falsy) signature
fails; otherwise the supplied verifier is called on the hash of the
canonical-minus-signature form, the signature and the voter id.  The
verifier is modelled as a total boolean function (the Python wrapper turns
a verifier exception into `False`, so a total function loses nothing). -/
def verifySignature (sha : String → String)
    (verifier : String → String → String → Bool) (t : Transaction) : Bool :=
  match t.signature with
  | none => false
  | some sig =>
      if sig = "" then false
      else verifier (sha (txCanonicalString t)) sig t.voterId

/-- Embedding of `Blockchain.add_transaction`: reject a double vote; when a verifier is
supplied, reject a failing signature; otherwise append to the mempool.
Returns the boolean result and the state after the call. -/
def addTransaction (sha : String → String) (s : ChainState) (t : Transaction)
    (verifier : Option (String → String → String → Bool)) : Bool × ChainState :=
  if hasVoterVoted s t.voterId then (false, s)
  else
    match verifier with
    | some f =>
        if ¬ verifySignature sha f t then (false, s)
        else (true, { s with pending := s.pending ++ [t] })
    | none => (true, { s with pending := s.pending ++ [t] })

/-- The state change of `Blockchain.mine_pending_transactions` on a
nonempty mempool, abstracted over the mined block `b`: the nonce search
only alters `nonce` and `hash`, so any appended block whose transaction
list is the mempool covers it; the mempool is cleared. -/
def sealPending (s : ChainState) (b : Block) : ChainState :=
  { chain := s.chain ++ [b], pending := [] }

/-! ## Reference definitions written from the spec, for the refinement
claims (Merkle root §4.2, canonical hashing §4.1). -/

/-- Spec §4.2: collapse adjacent pairs of a level, the parent of `(a, b)`
being the hash of the concatenation of their hex forms. -/
def specPairUp (sha : String → String) : List String → List String
  | a :: b :: rest => sha (a ++ b) :: specPairUp sha rest
  | [_] => []
  | [] => []

/-- Spec §4.2: when the count of the current level is odd, duplicate the
last hash. -/
def specPad (l : List String) : List String :=
  if l.length % 2 = 1 then l ++ [l.getLastD ""] else l

theorem specPairUp_length (sha : String → String) (l : List String) :
    (specPairUp sha l).length = l.length / 2 := by
  induction l using specPairUp.induct sha with
  | case1 a b rest ih => simp [specPairUp, ih]; omega
  | case2 a => simp [specPairUp]
  | case3 => simp [specPairUp]

theorem specPad_length (l : List String) :
    (specPad l).length = l.length + l.length % 2 := by
  unfold specPad
  split
  · simp; omega
  · simp; omega

/-- Spec §4.2: repeat the padded collapse until a single hash remains. -/
def specMerkleLevels (sha : String → String) (l : List String) : List String :=
  if l.length ≤ 1 then l
  else specMerkleLevels sha (specPairUp sha (specPad l))
termination_by l.length
decreasing_by
  rw [specPairUp_length, specPad_length]
  omega

/-- Spec §4.2: the reference Merkle root of a transaction list. -/
def specMerkleRoot (sha : String → String) (txs : List Transaction) : String :=
  match txs with
  | [] => sha ""
  | _ :: _ => (specMerkleLevels sha (txs.map (txComputeHash sha))).headD (sha "")

theorem specPad_cons_cons (a b : String) (rest : List String) :
    specPad (a :: b :: rest) = a :: b :: specPad rest := by
  unfold specPad
  have hm : (a :: b :: rest).length % 2 = rest.length % 2 := by
    simp [List.length_cons]; omega
  rw [hm]
  by_cases h : rest.length % 2 = 1
  · cases rest with
    | nil => simp at h
    | cons x xs =>
        simp only [h, if_pos]
        simp [List.getLastD_cons]
  · simp [h]

theorem merklePairs_eq_spec (sha : String → String) (l : List String) :
    merklePairs sha l = specPairUp sha (specPad l) := by
  induction l using merklePairs.induct sha with
  | case1 a b rest ih =>
      rw [specPad_cons_cons]
      simp [merklePairs, specPairUp, ih]
  | case2 a => simp [merklePairs, specPad, specPairUp]
  | case3 => simp [merklePairs, specPad, specPairUp]

theorem merkleLoop_eq_spec_aux (sha : String → String) :
    ∀ (n : Nat) (l : List String), l.length ≤ n →
      merkleLoop sha l = specMerkleLevels sha l := by
  intro n
  induction n with
  | zero =>
      intro l hl
      have : l = [] := List.length_eq_zero.mp (Nat.le_zero.mp hl)
      subst this
      rw [merkleLoop, specMerkleLevels]
      simp
  | succ n ih =>
      intro l hl
      rw [merkleLoop, specMerkleLevels]
      by_cases h : l.length ≤ 1
      · simp [h]
      · simp only [h, if_neg, if_false]
        rw [merkleLevel, merklePairs_eq_spec]
        apply ih
        have := specPairUp_length sha (specPad l)
        have hp : (specPad l).length = l.length + l.length % 2 := by
          unfold specPad
          split <;> simp <;> omega
        omega

theorem merkleLoop_eq_spec (sha : String → String) (l : List String) :
    merkleLoop sha l = specMerkleLevels sha l :=
  merkleLoop_eq_spec_aux sha l.length l (le_refl _)

/-! ## Claim theorems -/

/-- C7: for every list of transactions the computed Merkle root equals the
reference definition of the spec (empty list: hash of the empty string;
otherwise collapse the transaction hashes pairwise, duplicating the last
hash of an odd level, until one hash remains); and on three hashes
`[a, b, c]` the collapse yields the root
`sha (sha (a ++ b) ++ sha (c ++ c))`. -/
theorem c7_merkle_root_matches_reference :
    (∀ (sha : String → String) (txs : List Transaction),
        calculateMerkleRoot sha txs = specMerkleRoot sha txs) ∧
    (∀ (sha : String → String) (a b c : String),
        merkleLoop sha [a, b, c] = [sha (sha (a ++ b) ++ sha (c ++ c))]) := by
  constructor
  · intro sha txs
    cases txs with
    | nil => simp [calculateMerkleRoot, specMerkleRoot]
    | cons t tl =>
        simp only [calculateMerkleRoot, specMerkleRoot, List.isEmpty_cons,
          Bool.false_eq_true, if_false]
        rw [merkleLoop_eq_spec]
        cases specMerkleLevels sha ((t :: tl).map (txComputeHash sha)) <;> simp
  · intro sha a b c
    have h1 : merkleLoop sha [a, b, c] = merkleLoop sha [sha (a ++ b), sha (c ++ c)] := by
      rw [merkleLoop]; simp [merkleLevel, merklePairs]
    have h2 : merkleLoop sha [sha (a ++ b), sha (c ++ c)] =
        merkleLoop sha [sha (sha (a ++ b) ++ sha (c ++ c))] := by
      rw [merkleLoop]; simp [merkleLevel, merklePairs]
    have h3 : merkleLoop sha [sha (sha (a ++ b) ++ sha (c ++ c))] =
        [sha (sha (a ++ b) ++ sha (c ++ c))] := by
      rw [merkleLoop]; simp
    rw [h1, h2, h3]

/-- C6: for every integer stake value `get_mining_difficulty` returns the
clamp of `4 - stake_value` into `[1, 8]`; in particular `8` at `-100`,
`1` at `100` and `4` at `0`. -/
theorem c6_difficulty_clamp :
    (∀ stakeValue : Int,
        getMiningDifficulty stakeValue = max 1 (min 8 (4 - stakeValue))) ∧
    getMiningDifficulty (-100) = 8 ∧
    getMiningDifficulty 100 = 1 ∧
    getMiningDifficulty 0 = 4 := by
  refine ⟨fun s => ?_, by decide, by decide, by decide⟩
  unfold getMiningDifficulty
  dsimp only
  split_ifs <;> omega

/-- C8: transaction hashing is independent of the `signature` field, and
block hashing is the digest of the sorted-key JSON rendering of the block
dictionary that omits `hash` and carries `index`, `transactions`,
`previous_hash`, `timestamp`, `nonce`, `merkle_root`, `miner_id` and
`stake_value` (both hash functions are plain functions of that canonical
form, so two serializers following it agree). -/
theorem c8_canonical_hashing :
    (∀ (sha : String → String) (t : Transaction) (s1 s2 : Option String),
        txComputeHash sha { t with signature := s1 } =
          txComputeHash sha { t with signature := s2 }) ∧
    (∀ (sha : String → String) (b : Block),
        blockComputeHash sha b = sha (renderDict
          [("index", toString b.index),
           ("merkle_root", jstr b.merkleRoot),
           ("miner_id", renderOptInt b.minerId),
           ("nonce", toString b.nonce),
           ("previous_hash", jstr b.previousHash),
           ("stake_value", renderOptInt b.stakeValue),
           ("timestamp", b.timestamp),
           ("transactions", renderTxList b.transactions)])) := by
  constructor
  · intro sha t s1 s2
    simp +decide [txComputeHash, txCanonicalString, dictPop, txToDict]
  · intro sha b
    have h : sortByKey (blockToDict b) =
        sortByKey [("index", toString b.index),
          ("merkle_root", jstr b.merkleRoot),
          ("miner_id", renderOptInt b.minerId),
          ("nonce", toString b.nonce),
          ("previous_hash", jstr b.previousHash),
          ("stake_value", renderOptInt b.stakeValue),
          ("timestamp", b.timestamp),
          ("transactions", renderTxList b.transactions)] := by
      simp +decide [blockToDict, sortByKey, insertByKey]
    simp [blockComputeHash, blockCanonicalString, renderDict, h]

/-- C1: the claim states that `is_valid_new_block` decides the four
conditions with the proof-of-work target derived from the stake; the code
instead reads the never-stored `mining_difficulty` attribute and raises
AttributeError as soon as the hash and link checks pass, here evaluated on
a freshly constructed block over the genesis block. -/
theorem c1_is_valid_new_block_raises (sha : String → String) (ts : String) :
    isValidNewBlock sha
      (mkBlock sha 1 [] (genesisBlock sha ts).hash ts 0 (some 1) (some 0))
      (genesisBlock sha ts) = .error PyError.attributeError := by
  have h1 : (mkBlock sha 1 [] (genesisBlock sha ts).hash ts 0 (some 1) (some 0)).hash
      = blockComputeHash sha
          (mkBlock sha 1 [] (genesisBlock sha ts).hash ts 0 (some 1) (some 0)) := rfl
  have h2 : (mkBlock sha 1 [] (genesisBlock sha ts).hash ts 0 (some 1) (some 0)).previousHash
      = (genesisBlock sha ts).hash := rfl
  simp [isValidNewBlock, h1, h2]

/-- C10: `validate_chain` is not total: on the empty chain the guard body
indexes `chain[0]` and raises IndexError, and on any chain headed by the
genuine genesis block (null miner and stake) the unconditional
`chain_score += chain[0].stake_value` raises TypeError. -/
theorem c10_validate_chain_not_total :
    (∀ (sha : String → String) (selfChain : List Block),
        validateChain sha selfChain [] = .error PyError.indexError) ∧
    (∀ (sha : String → String) (ts : String) (g : Block) (selfRest rest : List Block),
        validateChain sha (g :: selfRest) (genesisBlock sha ts :: rest) =
          .error PyError.typeError) := by
  constructor
  · intro sha selfChain; rfl
  · intro sha ts g selfRest rest
    have hs : (genesisBlock sha ts).stakeValue = none := rfl
    simp [validateChain, hs]

/-! ## Per-miner table characterization for the validators -/

/-- First-occurrence key accumulation: the keys a sequence of dict writes
appends to an existing key list. -/
def keysAfter {K : Type} [DecidableEq K] (ks ms : List K) : List K :=
  ms.foldl (fun acc m => if m ∈ acc then acc else acc ++ [m]) ks

theorem isValidNewBlock_ok_false (sha : String → String) (a b : Block) (r : Bool)
    (h : isValidNewBlock sha a b = .ok r) : r = false := by
  unfold isValidNewBlock at h
  split_ifs at h <;> simp_all

theorem keysAfter_cons {K : Type} [DecidableEq K] (ks : List K) (m : K)
    (ms : List K) :
    keysAfter ks (m :: ms) = keysAfter (if m ∈ ks then ks else ks ++ [m]) ms := by
  simp [keysAfter]

theorem vcGo_ok_table (sha : String → String) :
    ∀ (rest : List Block) (prev : Block) (checks : List (Option Int × Bool))
      (cc c : Bool) (t : List (Option Int × Bool)),
      vcGo sha prev rest checks cc = .ok (c, t) →
      t.map Prod.fst = keysAfter (checks.map Prod.fst) (rest.map Block.minerId) ∧
      ∀ k, dictLookup t k =
        if k ∈ rest.map Block.minerId then some false else dictLookup checks k := by
  intro rest
  induction rest with
  | nil =>
      intro prev checks cc c t h
      simp only [vcGo, Except.ok.injEq, Prod.mk.injEq] at h
      obtain ⟨-, h2⟩ := h
      subst h2
      exact ⟨rfl, fun k => by simp⟩
  | cons cur tl ih =>
      intro prev checks cc c t h
      cases hs : cur.stakeValue with
      | none => simp [vcGo, hs] at h
      | some sv =>
          cases hv : isValidNewBlock sha cur prev with
          | error e => simp [vcGo, hs, hv] at h
          | ok r =>
              have hr := isValidNewBlock_ok_false sha cur prev r hv
              subst hr
              simp only [vcGo, hs, hv] at h
              obtain ⟨hk, hl⟩ := ih cur (dictSet checks cur.minerId false) false c t h
              constructor
              · rw [hk, dictSet_keys, List.map_cons, keysAfter_cons]
              · intro k
                rw [hl k, dictLookup_dictSet]
                by_cases h1 : k ∈ tl.map Block.minerId
                · simp [h1]
                · by_cases h2 : k = cur.minerId <;> simp [h1, h2]

theorem icvGo_ok_table (sha : String → String) :
    ∀ (rest : List Block) (prev : Block) (checks : List (Option Int × Bool))
      (cc c : Bool) (t : List (Option Int × Bool)),
      icvGo sha prev rest checks cc = .ok (c, t) →
      t.map Prod.fst = keysAfter (checks.map Prod.fst) (rest.map Block.minerId) ∧
      ∀ k, dictLookup t k =
        if k ∈ rest.map Block.minerId then some false else dictLookup checks k := by
  intro rest
  induction rest with
  | nil =>
      intro prev checks cc c t h
      simp only [icvGo, Except.ok.injEq, Prod.mk.injEq] at h
      obtain ⟨-, h2⟩ := h
      subst h2
      exact ⟨rfl, fun k => by simp⟩
  | cons cur tl ih =>
      intro prev checks cc c t h
      cases hs : cur.stakeValue with
      | none => simp [icvGo, hs] at h
      | some sv =>
          by_cases hh : cur.hash ≠ blockComputeHash sha cur
          · simp only [icvGo, hs, if_pos hh] at h
            obtain ⟨hk, hl⟩ := ih cur (dictSet checks cur.minerId false) false c t h
            refine ⟨by rw [hk, dictSet_keys, List.map_cons, keysAfter_cons], fun k => ?_⟩
            rw [hl k, dictLookup_dictSet]
            by_cases h1 : k ∈ tl.map Block.minerId
            · simp [h1]
            · by_cases h2 : k = cur.minerId <;> simp [h1, h2]
          · by_cases hp : cur.previousHash ≠ prev.hash
            · simp only [icvGo, hs, if_neg hh, if_pos hp] at h
              obtain ⟨hk, hl⟩ := ih cur (dictSet checks cur.minerId false) false c t h
              refine ⟨by rw [hk, dictSet_keys, List.map_cons, keysAfter_cons], fun k => ?_⟩
              rw [hl k, dictLookup_dictSet]
              by_cases h1 : k ∈ tl.map Block.minerId
              · simp [h1]
              · by_cases h2 : k = cur.minerId <;> simp [h1, h2]
            · simp [icvGo, hs, if_neg hh, if_neg hp] at h


/-! ## Concrete sample values for closed evaluations -/

/-- A concrete stand-in digest function used for closed evaluations. -/
def shaConst : String → String := fun _ => ""

/-- The genesis block under `shaConst` at timestamp `0.0`. -/
def g0 : Block := genesisBlock shaConst "0.0"

/-- A block attributed to miner 1 whose stored `hash` does not match its
recomputed hash (so the hash check of a validator fails on it). -/
def b1bad : Block :=
  { index := 1, transactions := [], previousHash := g0.hash, timestamp := "1.0",
    nonce := 0, minerId := some 1, stakeValue := some 0, merkleRoot := "",
    hash := "x" }

/-- A non-genesis block whose `stake_value` is null. -/
def b2null : Block := { b1bad with stakeValue := none }

/-- The genesis block with its stake replaced by a concrete integer (its
stored `hash` still equals the genuine genesis hash). -/
def g0stake : Block := { g0 with stakeValue := some 0 }

/-- C2: the claim states that processing a heartbeat with a validated
chain adjusts each reported miner stake by plus or minus one; the code
iterates the returned dict itself instead of its items, so unpacking the
first key raises TypeError and no stake changes, here evaluated on a
validated chain reporting miner 1 as failing next to the intended update
of the spec. -/
theorem c2_heartbeat_stake_update_raises :
    handleHeartbeat shaConst { blockchain := [g0], miners := [(1, 0)] } [g0, b1bad] =
      ({ blockchain := [g0], miners := [(1, 0)] }, some PyError.typeError) ∧
    specStakeUpdate [(1, 0)] [(some 1, false)] = [(1, -1)] ∧
    isChainValid shaConst [g0, b1bad] = .ok (false, [(some 1, false)]) := by
  exact ⟨rfl, rfl, rfl⟩

/-- C3: a candidate chain replaces the current one exactly when it is
strictly longer and validates: in the tracker heartbeat handler the
reference chain becomes the candidate iff the validator completed with a
true verdict and the candidate is strictly longer (a raising validation
leaves the whole state unchanged), and in the peer chain-response handler
the local chain is replaced iff the received chain is strictly longer and
valid, otherwise kept. -/
theorem c3_longest_chain_rule :
    (∀ (sha : String → String) (s : TrackerHB) (temp : List Block)
       (ok : Bool) (res : List (Option Int × Bool)),
        isChainValid sha temp = .ok (ok, res) →
        (handleHeartbeat sha s temp).1.blockchain =
          if temp.length > s.blockchain.length ∧ ok = true then temp
          else s.blockchain) ∧
    (∀ (sha : String → String) (s : TrackerHB) (temp : List Block) (e : PyError),
        isChainValid sha temp = .error e → (handleHeartbeat sha s temp).1 = s) ∧
    (∀ (sha : String → String) (cur temp : OldBlockchain),
        handleChainResponse sha cur temp =
          if temp.chain.length > cur.chain.length ∧ oldIsChainValid sha temp = true
          then temp else cur) := by
  refine ⟨?_, ?_, fun sha cur temp => rfl⟩
  · intro sha s temp ok res h
    cases res with
    | nil =>
        by_cases hc : temp.length > s.blockchain.length ∧ ok = true <;>
          simp [handleHeartbeat, h, hc]
    | cons p rtl =>
        by_cases hc : temp.length > s.blockchain.length ∧ ok = true <;>
          simp [handleHeartbeat, h, hc]
  · intro sha s temp e h
    simp [handleHeartbeat, h]

/-- Closed instance of `c3_longest_chain_rule`: an invalid candidate
leaves the tracker reference chain unchanged, and a raising validation
leaves the whole heartbeat state unchanged. -/
theorem c3_longest_chain_rule_witness :
    (handleHeartbeat shaConst { blockchain := [g0], miners := [] } [g0, b1bad]).1.blockchain
        = [g0] ∧
    (handleHeartbeat shaConst { blockchain := [g0], miners := [] } [g0, b2null]).1
        = { blockchain := [g0], miners := [] } := by
  constructor
  · have := c3_longest_chain_rule.1 shaConst { blockchain := [g0], miners := [] }
      [g0, b1bad] false [(some 1, false)] rfl
    simpa using this
  · exact c3_longest_chain_rule.2.1 shaConst { blockchain := [g0], miners := [] }
      [g0, b2null] PyError.typeError rfl

/-- C5 counterexample: on the single-block chain whose head matches the
local genesis hash but carries a concrete stake, `validate_chain` returns
a table holding an entry for the first (genesis-position) block, although
the chain has no non-genesis block, so the claim that the table covers
exactly the non-genesis miners (genesis contributing no entry) fails. -/
theorem c5_genesis_entry_counterexample :
    validateChain shaConst [g0] [g0stake] = .ok (true, [(none, true)]) ∧
    ([((none : Option Int), true)] : List (Option Int × Bool)) ≠ [] := by
  exact ⟨rfl, by simp⟩

/-- C5 (amended): whenever the validators return instead of raising, the
per-miner table of `validate_chain` has an entry for exactly the miner ids
of ALL blocks, the first (genesis-position) block included: a miner is
marked false iff it owns a block at positions one and up (all of which
failed, since a fully valid block makes the validator raise) or it is the
first miner and the genesis hash check failed; it is marked true iff it is
only the first miner and that check passed.  `is_chain_valid` tables
exactly the miners of the failing non-genesis blocks, all false. -/
theorem c5_per_miner_table_amended :
    (∀ (sha : String → String) (g : Block) (selfRest : List Block)
       (c0 : Block) (tl : List Block) (c : Bool) (t : List (Option Int × Bool)),
        validateChain sha (g :: selfRest) (c0 :: tl) = .ok (c, t) →
        t.map Prod.fst = keysAfter [] ((c0 :: tl).map Block.minerId) ∧
        (∀ k, dictLookup t k = some false ↔
            (k ∈ tl.map Block.minerId ∨ (k = c0.minerId ∧ c0.hash ≠ g.hash))) ∧
        (∀ k, dictLookup t k = some true ↔
            (k = c0.minerId ∧ c0.hash = g.hash ∧ k ∉ tl.map Block.minerId))) ∧
    (∀ (sha : String → String) (b0 : Block) (tl : List Block) (c : Bool)
       (t : List (Option Int × Bool)),
        isChainValid sha (b0 :: tl) = .ok (c, t) →
        t.map Prod.fst = keysAfter [] (tl.map Block.minerId) ∧
        ∀ k, dictLookup t k =
          if k ∈ tl.map Block.minerId then some false else none) := by
  constructor
  · intro sha g selfRest c0 tl c t h
    cases hs0 : c0.stakeValue with
    | none => simp [validateChain, hs0] at h
    | some sv =>
        by_cases hg : c0.hash ≠ g.hash
        · have h' : vcGo sha c0 tl (dictSet [] c0.minerId false) false = .ok (c, t) := by
            simpa [validateChain, hs0, hg] using h
          obtain ⟨hk, hl⟩ := vcGo_ok_table sha tl c0 (dictSet [] c0.minerId false) false c t h'
          refine ⟨?_, ?_, ?_⟩
          · rw [hk, List.map_cons, keysAfter_cons]
            simp [dictSet]
          · intro k
            rw [hl k]
            by_cases h1 : k ∈ tl.map Block.minerId
            · simp [h1]
            · by_cases h2 : k = c0.minerId <;> simp [dictSet, dictLookup, h1, h2, hg]
          · intro k
            rw [hl k]
            by_cases h1 : k ∈ tl.map Block.minerId
            · simp [h1]
            · by_cases h2 : k = c0.minerId <;> simp [dictSet, dictLookup, h1, h2, hg]
        · have hg' : c0.hash = g.hash := not_not.mp hg
          have h' : vcGo sha c0 tl (dictSet [] c0.minerId true) true = .ok (c, t) := by
            simpa [validateChain, hs0, hg'] using h
          obtain ⟨hk, hl⟩ := vcGo_ok_table sha tl c0 (dictSet [] c0.minerId true) true c t h'
          refine ⟨?_, ?_, ?_⟩
          · rw [hk, List.map_cons, keysAfter_cons]
            simp [dictSet]
          · intro k
            rw [hl k]
            by_cases h1 : k ∈ tl.map Block.minerId
            · simp [h1]
            · by_cases h2 : k = c0.minerId <;> simp [dictSet, dictLookup, h1, h2, hg']
          · intro k
            rw [hl k]
            by_cases h1 : k ∈ tl.map Block.minerId
            · simp [h1]
            · by_cases h2 : k = c0.minerId <;> simp [dictSet, dictLookup, h1, h2, hg']
  · intro sha b0 tl c t h
    obtain ⟨hk, hl⟩ := icvGo_ok_table sha tl b0 [] true c t h
    refine ⟨by simpa using hk, fun k => ?_⟩
    simpa [dictLookup] using hl k

/-- Closed instance of `c5_per_miner_table_amended` on a two-block chain
whose second block fails its hash check. -/
theorem c5_per_miner_table_amended_witness :
    validateChain shaConst [g0] [g0stake, b1bad] =
      .ok (false, [(none, true), (some 1, false)]) ∧
    List.map Prod.fst [((none : Option Int), true), (some 1, false)] =
      keysAfter [] ([g0stake, b1bad].map Block.minerId) ∧
    (dictLookup [((none : Option Int), true), (some 1, false)] (some 1) = some false ↔
      (some 1 ∈ [b1bad].map Block.minerId ∨
        (some 1 = g0stake.minerId ∧ g0stake.hash ≠ g0.hash))) ∧
    isChainValid shaConst [g0, b1bad] = .ok (false, [(some 1, false)]) ∧
    dictLookup [((some (1 : Int)), false)] (some 1) =
      (if (some (1 : Int)) ∈ [b1bad].map Block.minerId then some false else none) := by
  refine ⟨rfl, ?_, ?_, rfl, ?_⟩
  · exact (c5_per_miner_table_amended.1 shaConst g0 [] g0stake [b1bad] false
      [(none, true), (some 1, false)] rfl).1
  · exact (c5_per_miner_table_amended.1 shaConst g0 [] g0stake [b1bad] false
      [(none, true), (some 1, false)] rfl).2.1 (some 1)
  · exact (c5_per_miner_table_amended.2 shaConst g0 [b1bad] false
      [(some 1, false)] rfl).2 (some 1)

/-! ## C4 support -/

theorem trackerStep_assignedIds_of_known (s : TrackerReg) (pid host : String)
    (port now : Int) (e : String × Int × Nat)
    (h : dictLookup s.peers pid = some e) :
    (trackerStep s (.register pid host port now)).assignedIds = s.assignedIds := by
  simp [trackerStep, handleRegister, h]

theorem trackerStep_assignedIds_of_fresh (s : TrackerReg) (pid host : String)
    (port now : Int) (h : dictLookup s.peers pid = none) :
    (trackerStep s (.register pid host port now)).assignedIds = s.assignedIds + 1 := by
  simp [trackerStep, handleRegister, h]

theorem trackerFreshIds_range (evs : List TrackerEvent) :
    ∀ s : TrackerReg,
      trackerFreshIds s evs =
        List.range' (s.assignedIds + 1) (trackerFreshIds s evs).length := by
  induction evs with
  | nil => intro s; rfl
  | cons e tl ih =>
      intro s
      cases e with
      | register pid host port now =>
          cases hm : dictLookup s.peers pid with
          | none =>
              have h2 := ih (trackerStep s (.register pid host port now))
              rw [trackerStep_assignedIds_of_fresh s pid host port now hm] at h2
              simp only [trackerFreshIds, hm, List.length_cons, List.range'_succ]
              exact congrArg (List.cons _) h2
          | some v =>
              have h2 := ih (trackerStep s (.register pid host port now))
              rw [trackerStep_assignedIds_of_known s pid host port now v hm] at h2
              simpa only [trackerFreshIds, hm] using h2
      | heartbeat pid now =>
          have h2 := ih (trackerStep s (.heartbeat pid now))
          have hstep : (trackerStep s (.heartbeat pid now)).assignedIds = s.assignedIds := by
            cases hm : dictLookup s.activePeers pid <;>
              simp [trackerStep, handleHeartbeatTime, hm]
          rw [hstep] at h2
          simpa only [trackerFreshIds] using h2
      | sweep now =>
          have h2 := ih (trackerStep s (.sweep now))
          simpa only [trackerFreshIds] using h2

/-- The event sequence of the C4 counterexample: a peer registers, is
evicted by the liveness sweep, and registers again. -/
def evsC4 : List TrackerEvent :=
  [.register "p" "h" 1 0, .sweep 100, .register "p" "h" 1 200]

/-- C4 counterexample: after registration, eviction by the sweep (which
pops the peer from `self.peers` as well as `self.active_peers`) and a
re-registration, the peer holds miner id 2, not its original id 1, so a
re-registering evicted peer does not keep its original miner id (the old
stake survives under the now-orphaned id 1). -/
theorem c4_evicted_rejoin_counterexample :
    dictLookup (trackerReplay initTracker evsC4).peers "p" = some ("h", 1, 2) ∧
    (2 : Nat) ≠ 1 ∧
    (trackerReplay initTracker evsC4).miners = [(1, 0), (2, 0)] := by
  exact ⟨rfl, by decide, rfl⟩

/-- C4 (amended): a peer re-registering while still present in the peer
table keeps its miner id, and neither the id counter nor the stake map
moves; a registration of a peer id absent from the peer table (a genuine
newcomer, or a previously evicted peer, since the sweep pops the peer
table entry too) is assigned the next id with stake 0; sweeps and
heartbeats never touch the id counter or the stake map; and the ids
handed out over any event sequence are the consecutive integers from 1. -/
theorem c4_miner_id_assignment_amended :
    (∀ (s : TrackerReg) (pid host : String) (port now : Int)
       (e : String × Int × Nat),
        dictLookup s.peers pid = some e →
        (handleRegister s pid host port now).assignedIds = s.assignedIds ∧
        dictLookup (handleRegister s pid host port now).peers pid =
          some (host, port, e.2.2) ∧
        (handleRegister s pid host port now).miners = s.miners) ∧
    (∀ (s : TrackerReg) (pid host : String) (port now : Int),
        dictLookup s.peers pid = none →
        (handleRegister s pid host port now).assignedIds = s.assignedIds + 1 ∧
        dictLookup (handleRegister s pid host port now).peers pid =
          some (host, port, s.assignedIds + 1) ∧
        (handleRegister s pid host port now).miners =
          dictSet s.miners (s.assignedIds + 1) 0) ∧
    (∀ (s : TrackerReg) (now : Int),
        (handleSweep s now).assignedIds = s.assignedIds ∧
        (handleSweep s now).miners = s.miners) ∧
    (∀ (s : TrackerReg) (pid : String) (now : Int),
        (handleHeartbeatTime s pid now).assignedIds = s.assignedIds ∧
        (handleHeartbeatTime s pid now).peers = s.peers ∧
        (handleHeartbeatTime s pid now).miners = s.miners) ∧
    (∀ evs : List TrackerEvent,
        trackerFreshIds initTracker evs =
          List.range' 1 (trackerFreshIds initTracker evs).length) := by
  refine ⟨?_, ?_, ?_, ?_, ?_⟩
  · intro s pid host port now e h
    refine ⟨?_, ?_, ?_⟩ <;> simp [handleRegister, h, dictLookup_dictSet]
  · intro s pid host port now h
    refine ⟨?_, ?_, ?_⟩ <;> simp [handleRegister, h, dictLookup_dictSet]
  · intro s now
    exact ⟨rfl, rfl⟩
  · intro s pid now
    cases hm : dictLookup s.activePeers pid <;>
      simp [handleHeartbeatTime, hm]
  · intro evs
    have := trackerFreshIds_range evs initTracker
    simpa [initTracker] using this

/-- Closed instance of `c4_miner_id_assignment_amended`: a second
registration of a still-present peer keeps miner id 1, and the first
registration of a fresh peer assigns id 1 with stake 0. -/
theorem c4_miner_id_assignment_amended_witness :
    ((handleRegister (handleRegister initTracker "p" "h" 1 0) "p" "g" 2 5).assignedIds =
        (handleRegister initTracker "p" "h" 1 0).assignedIds ∧
      dictLookup (handleRegister (handleRegister initTracker "p" "h" 1 0) "p" "g" 2 5).peers
          "p" = some ("g", 2, 1) ∧
      (handleRegister (handleRegister initTracker "p" "h" 1 0) "p" "g" 2 5).miners =
        (handleRegister initTracker "p" "h" 1 0).miners) ∧
    ((handleRegister initTracker "p" "h" 1 0).assignedIds =
        initTracker.assignedIds + 1 ∧
      dictLookup (handleRegister initTracker "p" "h" 1 0).peers "p" =
        some ("h", 1, initTracker.assignedIds + 1) ∧
      (handleRegister initTracker "p" "h" 1 0).miners =
        dictSet initTracker.miners (initTracker.assignedIds + 1) 0) := by
  exact ⟨c4_miner_id_assignment_amended.1 (handleRegister initTracker "p" "h" 1 0)
      "p" "g" 2 5 ("h", 1, 1) rfl,
    c4_miner_id_assignment_amended.2.1 initTracker "p" "h" 1 0 rfl⟩

/-! ## C9 support -/

/-- The signature condition of `add_transaction`: vacuous when no verifier
is supplied, otherwise `Transaction.verify_signature`. -/
def sigOk (sha : String → String) :
    Option (String → String → String → Bool) → Transaction → Bool
  | none, _ => true
  | some f, t => verifySignature sha f t

theorem addTransaction_true_iff (sha : String → String) (s : ChainState)
    (t : Transaction) (vf : Option (String → String → String → Bool)) :
    (addTransaction sha s t vf).1 = true ↔
      (hasVoterVoted s t.voterId = false ∧ sigOk sha vf t = true) := by
  unfold addTransaction
  by_cases hv : hasVoterVoted s t.voterId
  · simp [hv]
  · cases vf with
    | none => simp [hv, sigOk]
    | some f => by_cases hs : verifySignature sha f t <;> simp [hv, hs, sigOk]

theorem hasVoterVoted_false_iff (s : ChainState) (v : String) :
    hasVoterVoted s v = false ↔
      ((∀ tx ∈ s.pending, tx.voterId ≠ v) ∧
        ∀ b ∈ s.chain, ∀ tx ∈ b.transactions, tx.voterId ≠ v) := by
  simp [hasVoterVoted]

theorem addTransaction_state_true (sha : String → String) (s : ChainState)
    (t : Transaction) (vf : Option (String → String → String → Bool))
    (h : (addTransaction sha s t vf).1 = true) :
    (addTransaction sha s t vf).2 = { s with pending := s.pending ++ [t] } := by
  unfold addTransaction at h ⊢
  by_cases hv : hasVoterVoted s t.voterId
  · simp [hv] at h
  · cases vf with
    | none => simp [hv]
    | some f =>
        by_cases hs : verifySignature sha f t
        · simp [hv, hs]
        · simp [hv, hs] at h

theorem addTransaction_state_false (sha : String → String) (s : ChainState)
    (t : Transaction) (vf : Option (String → String → String → Bool))
    (h : (addTransaction sha s t vf).1 = false) :
    (addTransaction sha s t vf).2 = s := by
  unfold addTransaction at h ⊢
  by_cases hv : hasVoterVoted s t.voterId
  · simp [hv]
  · cases vf with
    | none => simp [hv] at h
    | some f =>
        by_cases hs : verifySignature sha f t
        · simp [hv, hs] at h
        · simp [hv, hs]

theorem hasVoterVoted_mono_add (sha : String → String) (s : ChainState)
    (t : Transaction) (vf : Option (String → String → String → Bool)) (v : String)
    (h : hasVoterVoted s v = true) :
    hasVoterVoted (addTransaction sha s t vf).2 v = true := by
  cases hr : (addTransaction sha s t vf).1 with
  | false => rw [addTransaction_state_false sha s t vf hr]; exact h
  | true =>
      rw [addTransaction_state_true sha s t vf hr]
      simp only [hasVoterVoted, List.any_append, List.any_cons, List.any_nil,
        Bool.or_false, Bool.or_eq_true] at h ⊢
      tauto

theorem hasVoterVoted_mono_seal (s : ChainState) (b : Block) (v : String)
    (hb : b.transactions = s.pending) (h : hasVoterVoted s v = true) :
    hasVoterVoted (sealPending s b) v = true := by
  simp only [hasVoterVoted, sealPending, List.any_append, List.any_cons,
    List.any_nil, Bool.or_false, Bool.false_or, Bool.or_eq_true] at h ⊢
  rw [hb]
  tauto

theorem addTransaction_after_success (sha : String → String) (s : ChainState)
    (t : Transaction) (vf : Option (String → String → String → Bool))
    (t' : Transaction) (vf' : Option (String → String → String → Bool))
    (h : (addTransaction sha s t vf).1 = true) (hvid : t'.voterId = t.voterId) :
    (addTransaction sha (addTransaction sha s t vf).2 t' vf').1 = false := by
  rw [addTransaction_state_true sha s t vf h]
  have hvoted : hasVoterVoted { s with pending := s.pending ++ [t] } t'.voterId = true := by
    simp [hasVoterVoted, hvid]
  unfold addTransaction
  simp [hvoted]

/-- C9: `add_transaction` admits exactly when the voter has not voted in
the mempool or in any committed block and the signature check passes when
a verifier is supplied; admission appends the transaction to the mempool
and rejection leaves the state untouched; once a voter is admitted, any
later `add_transaction` with that voter id on a state reached by further
admissions or by sealing the mempool into a block is rejected. -/
theorem c9_add_transaction_admission :
    (∀ (sha : String → String) (s : ChainState) (t : Transaction)
       (vf : Option (String → String → String → Bool)),
        (addTransaction sha s t vf).1 = true ↔
          (hasVoterVoted s t.voterId = false ∧ sigOk sha vf t = true)) ∧
    (∀ (s : ChainState) (v : String),
        hasVoterVoted s v = false ↔
          ((∀ tx ∈ s.pending, tx.voterId ≠ v) ∧
            ∀ b ∈ s.chain, ∀ tx ∈ b.transactions, tx.voterId ≠ v)) ∧
    (∀ (sha : String → String) (s : ChainState) (t : Transaction)
       (vf : Option (String → String → String → Bool)),
        ((addTransaction sha s t vf).1 = true →
          (addTransaction sha s t vf).2 = { s with pending := s.pending ++ [t] }) ∧
        ((addTransaction sha s t vf).1 = false →
          (addTransaction sha s t vf).2 = s)) ∧
    (∀ (sha : String → String) (s : ChainState) (t : Transaction)
       (vf : Option (String → String → String → Bool))
       (t' : Transaction) (vf' : Option (String → String → String → Bool)),
        (addTransaction sha s t vf).1 = true → t'.voterId = t.voterId →
        (addTransaction sha (addTransaction sha s t vf).2 t' vf').1 = false) ∧
    (∀ (sha : String → String) (s : ChainState) (t : Transaction)
       (vf : Option (String → String → String → Bool)) (v : String),
        hasVoterVoted s v = true →
        hasVoterVoted (addTransaction sha s t vf).2 v = true) ∧
    (∀ (s : ChainState) (b : Block) (v : String),
        b.transactions = s.pending → hasVoterVoted s v = true →
        hasVoterVoted (sealPending s b) v = true) :=
  ⟨addTransaction_true_iff, hasVoterVoted_false_iff,
    fun sha s t vf => ⟨addTransaction_state_true sha s t vf,
      addTransaction_state_false sha s t vf⟩,
    addTransaction_after_success, hasVoterVoted_mono_add, hasVoterVoted_mono_seal⟩

/-- A concrete vote transaction for the closed C9 instance. -/
def tx0 : Transaction :=
  { transactionId := "t1", voterId := "v1", voteData := [], signature := none,
    timestamp := "1.0" }

/-- A second transaction by the same voter. -/
def tx1 : Transaction := { tx0 with transactionId := "t2" }

/-- A fresh chain state: the genesis chain and an empty mempool. -/
def freshState : ChainState := { chain := [g0], pending := [] }

/-- A block sealing exactly `[tx0]`. -/
def blkTx0 : Block := { b1bad with transactions := [tx0] }

/-- Closed instance of `c9_add_transaction_admission`: the first vote of
`v1` is admitted and appended; a second vote by `v1` is rejected both
directly after admission and after the mempool is sealed into a block. -/
theorem c9_add_transaction_admission_witness :
    (addTransaction shaConst freshState tx0 none).1 = true ∧
    (addTransaction shaConst freshState tx0 none).2 =
      { freshState with pending := freshState.pending ++ [tx0] } ∧
    (addTransaction shaConst (addTransaction shaConst freshState tx0 none).2
        tx1 none).1 = false ∧
    hasVoterVoted (sealPending { chain := [g0], pending := [tx0] } blkTx0) "v1" = true := by
  refine ⟨rfl, ?_, ?_, ?_⟩
  · exact (c9_add_transaction_admission.2.2.1 shaConst freshState tx0 none).1 rfl
  · exact c9_add_transaction_admission.2.2.2.1 shaConst freshState tx0 none tx1 none rfl rfl
  · exact c9_add_transaction_admission.2.2.2.2.2 { chain := [g0], pending := [tx0] }
      blkTx0 "v1" rfl rfl
